import Mathlib

/-!
Shallow embedding of `SimpleVector<Type>` (src/simple_vector.h) and its
underlying `ArrayPtr<Type>` (src/array_ptr.h).

Modelling conventions:
* The owned heap buffer (`ArrayPtr` contents) is a `List α`; its length is the
  true allocation size (`new Type[n]` default-constructs all `n` slots, so a
  fresh buffer of `n` slots is `List.replicate n default`).
* The `size_` and `capacity_` members are `size_t` values, modelled as `Nat`
  together with explicit reduction modulo `W = 2 ^ 64` at every arithmetic
  step the C++ performs on `size_t` (`% W` on increments and doublings, and
  the wrap-around decrement `wrapDec`, proven equal to the `% W` form in
  `wrapDec_eq_mod`); a `size_t` value itself is always `< W`.
* Writes past the end of the allocation are undefined behaviour in C++; the
  model truncates such writes (`List.take`).  All theorems below are stated
  under the documented preconditions, where no such write occurs.
* `Type()` (default construction of an element) is `default` of an
  `Inhabited` instance.
-/

/-- The modulus of `size_t` arithmetic on a 64-bit platform: `2 ^ 64`,
written as a numeral. -/
def W : Nat := 18446744073709551616

/-- `W` is `2 ^ 64`. -/
theorem W_eq : W = 2 ^ 64 := by norm_num [W]

/-- The unchecked `size_t` decrement `--s`: wraps around to `W - 1` at 0.
On `size_t` values (naturals below `W`) this is exactly subtraction of 1
modulo `2 ^ 64`; see `wrapDec_eq_mod`. -/
def wrapDec (s : Nat) : Nat := if s = 0 then W - 1 else s - 1

/-- `wrapDec` agrees with the modular description of the unsigned
decrement on every representable `size_t` value. -/
theorem wrapDec_eq_mod (s : Nat) (h : s < W) :
    wrapDec s = (s + (W - 1)) % W := by
  unfold wrapDec W at *
  split <;> omega

/-- State of a `SimpleVector<Type>`: the owned buffer (`items_`, an
`ArrayPtr<Type>` whose allocation the list represents slot by slot), and the
`size_` and `capacity_` members (both `size_t`, default member initializer 0). -/
structure SimpleVector (α : Type) where
  items : List α
  size_ : Nat
  capacity_ : Nat
deriving DecidableEq, Repr

namespace SimpleVector

variable {α : Type}

/-- `SimpleVector() noexcept = default`: all members take their default
member initializers (`items_{}` empty, `size_ = 0`, `capacity_ = 0`). -/
def empty : SimpleVector α := ⟨[], 0, 0⟩

/-- The logical contents, positions `[0, size_)` of the buffer
(`begin()` to `end()`). -/
def elems (v : SimpleVector α) : List α := v.items.take v.size_

/-- A fresh buffer of `n` slots (all default-constructed by `new Type[n]`)
whose front is overwritten with `src` by `std::copy`.  When the copy would run
past the allocation (UB in C++) the model truncates. -/
def fillCopy [Inhabited α] (src : List α) (n : Nat) : List α :=
  (src ++ List.replicate n default).take n

/-- `explicit SimpleVector(size_t size)`: allocate `size` slots, fill with
`Type()`, set `size_ = capacity_ = size` (the `if (size)` guard is redundant
for `size = 0`, where the state is the default one anyway). -/
def ofSize [Inhabited α] (size : Nat) : SimpleVector α :=
  ⟨List.replicate size default, size, size⟩

/-- `SimpleVector(size_t size, const Type& value)`: allocate `size` slots,
fill with copies of `value`, set `size_ = capacity_ = size`. -/
def ofSizeValue (size : Nat) (value : α) : SimpleVector α :=
  ⟨List.replicate size value, size, size⟩

/-- `SimpleVector(std::initializer_list<Type> init)`: allocate `init.size()`
slots, copy the list in, set `size_ = capacity_ = init.size()`. -/
def fromList (init : List α) : SimpleVector α :=
  ⟨init, init.length, init.length⟩

/-- `SimpleVector(const ReserveProxyObj&)`: allocate `new_capacity` slots
(default-constructed), `capacity_ = new_capacity`, `size_` stays 0. -/
def reserveCtor [Inhabited α] (newCapacity : Nat) : SimpleVector α :=
  ⟨List.replicate newCapacity default, 0, newCapacity⟩

/-- `SimpleVector(const SimpleVector& other)`: the init list allocates
`other.capacity_` slots (default-constructed), the body copies
`other.begin()..other.end()` into the front and sets `size_ = other.size_`.
Faithful to the source: the constructor never assigns `capacity_`, which
therefore keeps its default member initializer 0. -/
def copyCtor [Inhabited α] (other : SimpleVector α) : SimpleVector α :=
  { items := fillCopy other.elems other.capacity_
    size_ := other.size_
    capacity_ := 0 }

/-- `void swap(SimpleVector&)`: both objects exchange buffer, `size_` and
`capacity_`.  Returns the pair (this-after, other-after). -/
def swapOp (a b : SimpleVector α) : SimpleVector α × SimpleVector α := (b, a)

/-- `operator=(const SimpleVector& rhs)`: guarded by `this != &rhs` (the
`same` flag models address identity); on the distinct path a temporary copy
of `rhs` is built and swapped in, so `*this` becomes `copyCtor rhs`. -/
def copyAssign [Inhabited α] (this rhs : SimpleVector α) (same : Bool) :
    SimpleVector α :=
  if same then this else ((swapOp this (copyCtor rhs)).1)

/-- `SimpleVector(SimpleVector&& other)`: the new object is default-initialized
then swapped with `other`.  Returns (new object, other-after). -/
def moveCtor (other : SimpleVector α) : SimpleVector α × SimpleVector α :=
  swapOp empty other

/-- `operator=(SimpleVector&& rhs)` for `this ≠ &rhs`:
`SimpleVector tmp(std::move(rhs)); swap(tmp);`.
Returns (this-after, rhs-after). -/
def moveAssign (this rhs : SimpleVector α) :
    SimpleVector α × SimpleVector α :=
  let p := moveCtor rhs
  ((swapOp this p.1).1, p.2)

/-- `operator=(SimpleVector&& rhs)` when `this == &rhs` (self-move): the
temporary is move-constructed from `*this` (emptying it), then swapped back. -/
def moveAssignSelf (a : SimpleVector α) : SimpleVector α :=
  let p := moveCtor a
  (swapOp p.2 p.1).1

/-- `void Reserve(size_t new_capacity)`: when `new_capacity > capacity_`,
allocate `new_capacity` slots, `std::fill` them with `Type()`, `std::copy`
the logical elements to the front, swap the buffer in, set
`capacity_ = new_capacity`; otherwise do nothing. -/
def reserve [Inhabited α] (v : SimpleVector α) (newCapacity : Nat) :
    SimpleVector α :=
  if newCapacity > v.capacity_ then
    { items := fillCopy v.elems newCapacity
      size_ := v.size_
      capacity_ := newCapacity }
  else v

/-- `void PushBack(Type item)`: if `size_ < capacity_`, write into slot
`size_` and increment `size_`; else allocate
`std::max(size_t(1), capacity_ * 2)` slots, move the logical elements across,
put `item` at slot `size_`, swap the buffer in, increment `size_`, record the
new capacity. -/
def pushBack [Inhabited α] (v : SimpleVector α) (item : α) : SimpleVector α :=
  if v.size_ < v.capacity_ then
    { items := v.items.set v.size_ item
      size_ := (v.size_ + 1) % W
      capacity_ := v.capacity_ }
  else
    let newCapacity := max 1 ((v.capacity_ * 2) % W)
    { items := fillCopy (v.elems ++ [item]) newCapacity
      size_ := (v.size_ + 1) % W
      capacity_ := newCapacity }

/-- `Iterator Insert(ConstIterator pos, Type value)` with
`index = pos - begin()`.  In-place path (`size_ < capacity_`):
`std::copy_backward` shifts `[index, size_)` to `[index+1, size_+1)` and
`value` lands in slot `index`.  Reallocating path: a buffer of
`std::max(size_t(1), capacity_ * 2)` default-constructed slots receives the
prefix `[0, index)`, then `value`, then the suffix `[index, size_)`. -/
def insertAt [Inhabited α] (v : SimpleVector α) (index : Nat) (value : α) :
    SimpleVector α :=
  if v.size_ < v.capacity_ then
    { items := v.items.take index ++ [value] ++
        (v.items.drop index).take (v.size_ - index) ++
        v.items.drop (v.size_ + 1)
      size_ := (v.size_ + 1) % W
      capacity_ := v.capacity_ }
  else
    let newCapacity := max 1 ((v.capacity_ * 2) % W)
    { items := fillCopy
        (v.items.take index ++ [value] ++
          (v.items.drop index).take (v.size_ - index)) newCapacity
      size_ := (v.size_ + 1) % W
      capacity_ := newCapacity }

/-- `void PopBack() noexcept`: `--size_;` — an unchecked `size_t` decrement,
which wraps modulo `2^64` when `size_ = 0`.  Buffer and `capacity_`
untouched. -/
def popBack (v : SimpleVector α) : SimpleVector α :=
  { v with size_ := wrapDec v.size_ }

/-- `Iterator Erase(ConstIterator pos)` with `index = pos - begin()`:
`std::copy` shifts `[index+1, size_)` down to `[index, size_-1)` (slot
`size_-1` keeps its old value), then `--size_` (unchecked `size_t`
decrement). -/
def eraseAt (v : SimpleVector α) (index : Nat) : SimpleVector α :=
  { v with
    items := v.items.take index ++
      (v.items.drop (index + 1)).take (v.size_ - 1 - index) ++
      v.items.drop (v.size_ - 1)
    size_ := wrapDec v.size_ }

/-- `void Clear() noexcept`: `size_ = 0`. -/
def clear (v : SimpleVector α) : SimpleVector α := { v with size_ := 0 }

/-- `void Resize(size_t new_size)`.  First branch (`new_size <= size_`):
shrink `size_`.  Middle branch (`size_ < new_size <= capacity_`):
default-construct into slots `[size_, new_size)` — faithful to the source,
which never updates `size_` on this branch.  Last branch: allocate
`std::max(capacity_ * 2, new_size)` slots, fill with `Type()`, copy the
logical elements across, set `size_ = new_size` and the new capacity. -/
def resize [Inhabited α] (v : SimpleVector α) (newSize : Nat) :
    SimpleVector α :=
  if newSize ≤ v.size_ then
    { v with size_ := newSize }
  else if newSize ≤ v.capacity_ then
    { v with items := v.items.take v.size_ ++
        List.replicate (newSize - v.size_) default ++ v.items.drop newSize }
  else
    let newCapacity := max ((v.capacity_ * 2) % W) newSize
    { items := fillCopy v.elems newCapacity
      size_ := newSize
      capacity_ := newCapacity }

/-- `size_t GetSize() const noexcept`. -/
def GetSize (v : SimpleVector α) : Nat := v.size_

/-- `size_t GetCapacity() const noexcept`. -/
def GetCapacity (v : SimpleVector α) : Nat := v.capacity_

/-- `bool IsEmpty() const noexcept`: `size_ == 0`. -/
def IsEmpty (v : SimpleVector α) : Bool := v.size_ == 0

/-- `operator[](size_t index)`: unchecked read of slot `index` (UB out of
the allocation; the model returns `default` there). -/
def getAt [Inhabited α] (v : SimpleVector α) (index : Nat) : α :=
  v.items.getD index default

/-- `Type& At(size_t index)`: throws
`std::out_of_range("index >= size")` when `index >= size_`, else returns a
reference to slot `index`. -/
def At [Inhabited α] (v : SimpleVector α) (index : Nat) : Except String α :=
  if index ≥ v.size_ then Except.error "index >= size"
  else Except.ok (v.items.getD index default)

/-- `operator==`: sizes must match, then `std::equal` over the logical
ranges (element-wise `==`). -/
def eqOp [BEq α] (lhs rhs : SimpleVector α) : Bool :=
  if lhs.GetSize == rhs.GetSize then lhs.elems == rhs.items.take lhs.size_
  else false

/-- `std::lexicographical_compare(f1, l1, f2, l2)` over two bounded ranges,
driven by element `<` exactly as the STL algorithm is specified. -/
def lexLt [LT α] [DecidableRel ((· < ·) : α → α → Prop)] :
    List α → List α → Bool
  | _, [] => false
  | [], _ :: _ => true
  | a :: as, b :: bs =>
    if a < b then true else if b < a then false else lexLt as bs

/-- `operator<`: `std::lexicographical_compare` over the logical ranges. -/
def ltOp [LT α] [DecidableRel ((· < ·) : α → α → Prop)]
    (lhs rhs : SimpleVector α) : Bool :=
  lexLt lhs.elems rhs.elems

/-- `operator!=`: `!(lhs == rhs)`. -/
def neOp [BEq α] (lhs rhs : SimpleVector α) : Bool := !(eqOp lhs rhs)

/-- `operator<=`: `!(rhs < lhs)`. -/
def leOp [LT α] [DecidableRel ((· < ·) : α → α → Prop)]
    (lhs rhs : SimpleVector α) : Bool := !(ltOp rhs lhs)

/-- `operator>`: `!(lhs <= rhs)`. -/
def gtOp [LT α] [DecidableRel ((· < ·) : α → α → Prop)]
    (lhs rhs : SimpleVector α) : Bool := !(leOp lhs rhs)

/-- `operator>=`: `!(lhs < rhs)`. -/
def geOp [LT α] [DecidableRel ((· < ·) : α → α → Prop)]
    (lhs rhs : SimpleVector α) : Bool := !(ltOp lhs rhs)

/-- Well-formedness of a vector state: the documented class invariant
`size_ ≤ capacity_`, the buffer really has `capacity_` allocated slots, and
`capacity_` is a representable `size_t` value. -/
def WF (v : SimpleVector α) : Prop :=
  v.size_ ≤ v.capacity_ ∧ v.items.length = v.capacity_ ∧ v.capacity_ < W

/-- Folding `PushBack` over a list of values. -/
def pushMany [Inhabited α] (v : SimpleVector α) (vs : List α) :
    SimpleVector α :=
  vs.foldl pushBack v

end SimpleVector

/-! ### Helper lemmas about the embedding -/

namespace SimpleVector

variable {α : Type}

instance decWF (v : SimpleVector α) : Decidable v.WF :=
  inferInstanceAs
    (Decidable (v.size_ ≤ v.capacity_ ∧ v.items.length = v.capacity_ ∧ v.capacity_ < W))

theorem W_pos : 0 < W := by norm_num [W]

theorem length_fillCopy [Inhabited α] (src : List α) (n : Nat) :
    (fillCopy src n).length = n := by
  simp [fillCopy]

theorem fillCopy_of_le [Inhabited α] {src : List α} {n : Nat}
    (h : src.length ≤ n) :
    fillCopy src n = src ++ List.replicate (n - src.length) default := by
  rw [fillCopy, List.take_append_eq_append_take, List.take_of_length_le h,
    List.take_replicate]
  have hm : min (n - src.length) n = n - src.length := by omega
  rw [hm]

theorem elems_length {v : SimpleVector α} (h : v.size_ ≤ v.items.length) :
    v.elems.length = v.size_ := by
  simp [elems]
  omega

theorem take_set_succ {l : List α} {n : Nat} (x : α) (h : n < l.length) :
    (l.set n x).take (n + 1) = l.take n ++ [x] := by
  induction l generalizing n with
  | nil => simp at h
  | cons a l ih =>
    cases n with
    | zero => simp
    | succ m =>
      simp only [List.set_cons_succ, List.take_succ_cons, List.cons_append]
      rw [ih (by simpa using h)]

end SimpleVector

/-! ### Claim theorems -/

/-- Claim C1, evaluation of the code at the failing input.  The claim states
that `0 ≤ size ≤ capacity` holds in every reachable state and in particular is
re-established by copy construction.  The code violates it: the copy
constructor allocates `other.capacity_` slots but never assigns the
`capacity_` member, which keeps its default member initializer 0.  Copy
constructing from the reachable vector `SimpleVector(1)` (size 1, capacity 1)
yields a state with `size_ = 1 > capacity_ = 0`. -/
theorem c1_copy_ctor_breaks_invariant :
    (SimpleVector.ofSize 1 : SimpleVector Nat).size_ ≤
      (SimpleVector.ofSize 1 : SimpleVector Nat).capacity_ ∧
    (SimpleVector.copyCtor (SimpleVector.ofSize 1 : SimpleVector Nat)).size_ = 1 ∧
    (SimpleVector.copyCtor (SimpleVector.ofSize 1 : SimpleVector Nat)).capacity_ = 0 ∧
    ¬ (SimpleVector.copyCtor (SimpleVector.ofSize 1 : SimpleVector Nat)).size_ ≤
      (SimpleVector.copyCtor (SimpleVector.ofSize 1 : SimpleVector Nat)).capacity_ := by
  decide

/-- Claim C2, evaluation of the code at the failing input.  The claim states
that copy construction and copy assignment produce a copy whose capacity
equals the source's capacity.  The code copies size and elements correctly
but leaves the copy's `capacity_` at 0 (the copy constructor never assigns
it), so for a source of capacity 2 both the copy-constructed and the
copy-assigned vector report capacity 0, not 2. -/
theorem c2_copy_capacity_not_adopted :
    (SimpleVector.fromList [1, 2] : SimpleVector Nat).GetCapacity = 2 ∧
    (SimpleVector.copyCtor (SimpleVector.fromList [1, 2] : SimpleVector Nat)).elems = [1, 2] ∧
    (SimpleVector.copyCtor (SimpleVector.fromList [1, 2] : SimpleVector Nat)).GetSize = 2 ∧
    (SimpleVector.copyCtor (SimpleVector.fromList [1, 2] : SimpleVector Nat)).GetCapacity = 0 ∧
    (SimpleVector.copyAssign SimpleVector.empty
      (SimpleVector.fromList [1, 2] : SimpleVector Nat) false).GetCapacity = 0 := by
  decide

/-- Claim C3, evaluation of the code at the failing input.  The claim states
that after `Resize(n)` the size equals `n`.  On the middle branch
(`size_ < new_size ≤ capacity_`) the code default-constructs into the new
slots but never updates `size_`: for the reachable vector of size 1 and
capacity 2 (reserve-constructed with capacity 2, then one `PushBack`),
`Resize(2)` leaves the size at 1 instead of 2. -/
theorem c3_resize_middle_branch_keeps_size :
    ((SimpleVector.reserveCtor 2 : SimpleVector Nat).pushBack 7).GetSize = 1 ∧
    ((SimpleVector.reserveCtor 2 : SimpleVector Nat).pushBack 7).GetCapacity = 2 ∧
    (((SimpleVector.reserveCtor 2 : SimpleVector Nat).pushBack 7).resize 2).GetSize = 1 ∧
    ¬ (((SimpleVector.reserveCtor 2 : SimpleVector Nat).pushBack 7).resize 2).GetSize = 2 := by
  decide

/-- Claim C6: move construction hands the new object exactly the source's
size, capacity and buffer and leaves the source default-empty (size 0,
capacity 0, no buffer); move assignment between distinct objects does the
same through the move-and-swap idiom; self-move-assignment leaves the object
unchanged, hence in a valid state satisfying `size ≤ capacity` whenever it
held before. -/
theorem c6_move_semantics (α : Type) (a b : SimpleVector α)
    (h : a.size_ ≤ a.capacity_) :
    (SimpleVector.moveCtor a).1 = a ∧
    (SimpleVector.moveCtor a).2 = SimpleVector.empty ∧
    (SimpleVector.moveCtor a).2.size_ = 0 ∧
    (SimpleVector.moveCtor a).2.capacity_ = 0 ∧
    (SimpleVector.moveAssign b a).1 = a ∧
    (SimpleVector.moveAssign b a).2 = SimpleVector.empty ∧
    SimpleVector.moveAssignSelf a = a ∧
    (SimpleVector.moveAssignSelf a).size_ ≤ (SimpleVector.moveAssignSelf a).capacity_ :=
  ⟨rfl, rfl, rfl, rfl, rfl, rfl, rfl, h⟩

/-- Witness for C6 at a concrete input. -/
theorem c6_move_semantics_witness :
    (SimpleVector.fromList [1, 2] : SimpleVector Nat).size_ ≤
      (SimpleVector.fromList [1, 2] : SimpleVector Nat).capacity_ ∧
    ((SimpleVector.moveCtor (SimpleVector.fromList [1, 2] : SimpleVector Nat)).1 =
        SimpleVector.fromList [1, 2] ∧
      (SimpleVector.moveCtor (SimpleVector.fromList [1, 2] : SimpleVector Nat)).2 =
        SimpleVector.empty ∧
      (SimpleVector.moveCtor (SimpleVector.fromList [1, 2] : SimpleVector Nat)).2.size_ = 0 ∧
      (SimpleVector.moveCtor (SimpleVector.fromList [1, 2] : SimpleVector Nat)).2.capacity_ = 0 ∧
      (SimpleVector.moveAssign (SimpleVector.fromList [9])
          (SimpleVector.fromList [1, 2] : SimpleVector Nat)).1 =
        SimpleVector.fromList [1, 2] ∧
      (SimpleVector.moveAssign (SimpleVector.fromList [9])
          (SimpleVector.fromList [1, 2] : SimpleVector Nat)).2 =
        SimpleVector.empty ∧
      SimpleVector.moveAssignSelf (SimpleVector.fromList [1, 2] : SimpleVector Nat) =
        SimpleVector.fromList [1, 2] ∧
      (SimpleVector.moveAssignSelf (SimpleVector.fromList [1, 2] : SimpleVector Nat)).size_ ≤
        (SimpleVector.moveAssignSelf (SimpleVector.fromList [1, 2] : SimpleVector Nat)).capacity_) :=
  ⟨by decide,
    c6_move_semantics Nat (SimpleVector.fromList [1, 2]) (SimpleVector.fromList [9])
      (by decide)⟩

/-- Claim C10: `PopBack` on an empty vector (size 0) performs the unchecked
`size_t` decrement `--size_`, which wraps modulo `2^64` and sets the size to
`2^64 - 1`; the capacity and the buffer are untouched, and (for any vector
whose capacity is an actually allocatable `size_t` value, i.e. below
`2^64 - 1`) the resulting size exceeds the capacity. -/
theorem c10_popBack_empty_wraps (α : Type) (v : SimpleVector α)
    (h0 : v.size_ = 0) (hc : v.capacity_ < W - 1) :
    v.popBack.size_ = 2 ^ 64 - 1 ∧
    v.popBack.capacity_ = v.capacity_ ∧
    v.popBack.items = v.items ∧
    v.popBack.capacity_ < v.popBack.size_ := by
  have hW : v.popBack.size_ = W - 1 := by
    simp [SimpleVector.popBack, wrapDec, h0]
  have h64 : W - 1 = 2 ^ 64 - 1 := by norm_num [W]
  refine ⟨by rw [hW, h64], rfl, rfl, ?_⟩
  rw [hW]
  exact hc

/-- Witness for C10 at the concrete input `SimpleVector()` (the default,
empty vector). -/
theorem c10_popBack_empty_wraps_witness :
    (SimpleVector.empty : SimpleVector Nat).popBack.size_ = 2 ^ 64 - 1 ∧
    (SimpleVector.empty : SimpleVector Nat).popBack.capacity_ =
      (SimpleVector.empty : SimpleVector Nat).capacity_ ∧
    (SimpleVector.empty : SimpleVector Nat).popBack.items =
      (SimpleVector.empty : SimpleVector Nat).items ∧
    (SimpleVector.empty : SimpleVector Nat).popBack.capacity_ <
      (SimpleVector.empty : SimpleVector Nat).popBack.size_ :=
  c10_popBack_empty_wraps Nat SimpleVector.empty rfl (by decide)

/-- Claim C7: `At(i)` raises the out-of-range error (with its descriptive
message `"index >= size"`) exactly when `i ≥ size`, and for `i < size`
returns the element at index `i`, which is the value `operator[](i)` yields.
`At` reads the state without mutating it (it is `const`-correct in the
source and a pure function of the state here), so size, capacity and
elements are untouched. -/
theorem c7_at_bounds_check (α : Type) [Inhabited α] (v : SimpleVector α)
    (i : Nat) :
    (v.size_ ≤ i ↔ v.At i = Except.error "index >= size") ∧
    (i < v.size_ → v.At i = Except.ok (v.getAt i)) := by
  constructor
  · constructor
    · intro h
      simp [SimpleVector.At, h]
    · intro h
      by_contra hc
      have hlt : i < v.size_ := Nat.lt_of_not_le hc
      simp [SimpleVector.At, Nat.not_le.mpr hlt] at h
  · intro h
    simp [SimpleVector.At, SimpleVector.getAt, Nat.not_le.mpr h]

/-- Witness for C7 at concrete inputs: on the vector `{5}`, `At(3)` is the
out-of-range error and `At(0)` returns `operator[](0)`. -/
theorem c7_at_bounds_check_witness :
    ((SimpleVector.fromList [5] : SimpleVector Nat).size_ ≤ 3 ↔
      (SimpleVector.fromList [5] : SimpleVector Nat).At 3 =
        Except.error "index >= size") ∧
    (SimpleVector.fromList [5] : SimpleVector Nat).At 0 =
      Except.ok ((SimpleVector.fromList [5] : SimpleVector Nat).getAt 0) :=
  ⟨(c7_at_bounds_check Nat (SimpleVector.fromList [5]) 3).1,
    (c7_at_bounds_check Nat (SimpleVector.fromList [5]) 0).2 (by decide)⟩

/-- Claim C9: `Reserve(n)` is observably a no-op when `n ≤ capacity` (the
state is literally unchanged); when `n > capacity` it sets the capacity to
exactly `n`, keeps the size and the logical elements, and leaves the slots
past the current size default-constructed; the capacity never shrinks. -/
theorem c9_reserve_spec (α : Type) [Inhabited α] (v : SimpleVector α)
    (n : Nat) (hwf : v.WF) :
    (n ≤ v.capacity_ → v.reserve n = v) ∧
    (v.capacity_ < n →
      (v.reserve n).capacity_ = n ∧
      (v.reserve n).size_ = v.size_ ∧
      (v.reserve n).elems = v.elems ∧
      (v.reserve n).items.drop v.size_ =
        List.replicate (n - v.size_) default) ∧
    v.capacity_ ≤ (v.reserve n).capacity_ := by
  obtain ⟨hsc, hlen, hcw⟩ := hwf
  have hel : v.elems.length = v.size_ :=
    SimpleVector.elems_length (by omega)
  refine ⟨?_, ?_, ?_⟩
  · intro h
    simp [SimpleVector.reserve, Nat.not_lt.mpr h]
  · intro h
    have hres : v.reserve n =
        ⟨SimpleVector.fillCopy v.elems n, v.size_, n⟩ := by
      simp [SimpleVector.reserve, h]
    have hfc : SimpleVector.fillCopy v.elems n =
        v.elems ++ List.replicate (n - v.size_) default := by
      rw [SimpleVector.fillCopy_of_le (by omega), hel]
    have hitems : (v.reserve n).items = SimpleVector.fillCopy v.elems n := by
      rw [hres]
    have helems : (v.reserve n).elems =
        (SimpleVector.fillCopy v.elems n).take v.size_ := by
      rw [SimpleVector.elems, hitems, hres]
    refine ⟨by rw [hres], by rw [hres], ?_, ?_⟩
    · rw [helems, hfc, List.take_append_of_le_length (by omega),
        List.take_of_length_le (by omega)]
    · rw [hitems, hfc, List.drop_left' hel]
  · by_cases h : v.capacity_ < n
    · simp [SimpleVector.reserve, h]
      omega
    · simp [SimpleVector.reserve, h]

/-- Witness for C9 at the concrete input `{3}` (size 1, capacity 1) with
`n = 5`. -/
theorem c9_reserve_spec_witness :
    (5 ≤ (SimpleVector.fromList [3] : SimpleVector Nat).capacity_ →
      (SimpleVector.fromList [3] : SimpleVector Nat).reserve 5 =
        SimpleVector.fromList [3]) ∧
    ((SimpleVector.fromList [3] : SimpleVector Nat).capacity_ < 5 →
      ((SimpleVector.fromList [3] : SimpleVector Nat).reserve 5).capacity_ = 5 ∧
      ((SimpleVector.fromList [3] : SimpleVector Nat).reserve 5).size_ =
        (SimpleVector.fromList [3] : SimpleVector Nat).size_ ∧
      ((SimpleVector.fromList [3] : SimpleVector Nat).reserve 5).elems =
        (SimpleVector.fromList [3] : SimpleVector Nat).elems ∧
      ((SimpleVector.fromList [3] : SimpleVector Nat).reserve 5).items.drop
          (SimpleVector.fromList [3] : SimpleVector Nat).size_ =
        List.replicate (5 - (SimpleVector.fromList [3] : SimpleVector Nat).size_)
          default) ∧
    (SimpleVector.fromList [3] : SimpleVector Nat).capacity_ ≤
      ((SimpleVector.fromList [3] : SimpleVector Nat).reserve 5).capacity_ :=
  c9_reserve_spec Nat (SimpleVector.fromList [3]) 5 (by decide)

namespace SimpleVector

/-- Full specification of one `PushBack` on a well-formed vector whose
doubled capacity is still a representable `size_t` value. -/
theorem pushBack_spec [Inhabited α] (v : SimpleVector α) (x : α)
    (hwf : v.WF) (h2 : 2 * v.capacity_ < W) :
    (v.pushBack x).elems = v.elems ++ [x] ∧
    (v.pushBack x).size_ = v.size_ + 1 ∧
    (v.size_ < v.capacity_ → (v.pushBack x).capacity_ = v.capacity_) ∧
    (v.size_ = v.capacity_ →
      (v.pushBack x).capacity_ = max 1 (2 * v.capacity_)) ∧
    (v.pushBack x).WF := by
  obtain ⟨hsc, hlen, hcw⟩ := hwf
  have hWv : W = 18446744073709551616 := rfl
  by_cases hlt : v.size_ < v.capacity_
  · have hres : v.pushBack x =
        ⟨v.items.set v.size_ x, (v.size_ + 1) % W, v.capacity_⟩ := by
      simp [pushBack, hlt]
    have hmod : (v.size_ + 1) % W = v.size_ + 1 := Nat.mod_eq_of_lt (by omega)
    have hitem : (v.pushBack x).items = v.items.set v.size_ x := by rw [hres]
    have hsz : (v.pushBack x).size_ = v.size_ + 1 := by
      rw [hres]
      show (v.size_ + 1) % W = v.size_ + 1
      exact hmod
    have hcap : (v.pushBack x).capacity_ = v.capacity_ := by rw [hres]
    have helems : (v.pushBack x).elems = v.elems ++ [x] := by
      show (v.pushBack x).items.take (v.pushBack x).size_ =
        v.items.take v.size_ ++ [x]
      rw [hitem, hsz, take_set_succ x (by omega)]
    refine ⟨helems, hsz, fun _ => hcap, fun h => absurd h (Nat.ne_of_lt hlt), ?_⟩
    refine ⟨?_, ?_, ?_⟩
    · rw [hsz, hcap]; omega
    · rw [hitem, hcap, List.length_set]; exact hlen
    · rw [hcap]; exact hcw
  · have heq : v.size_ = v.capacity_ := by omega
    have hres : v.pushBack x =
        ⟨fillCopy (v.elems ++ [x]) (max 1 ((v.capacity_ * 2) % W)),
          (v.size_ + 1) % W, max 1 ((v.capacity_ * 2) % W)⟩ := by
      simp [pushBack, hlt]
    have hm2 : (v.capacity_ * 2) % W = 2 * v.capacity_ := by
      rw [Nat.mod_eq_of_lt (by omega)]; omega
    have hnc : max 1 ((v.capacity_ * 2) % W) = max 1 (2 * v.capacity_) := by
      rw [hm2]
    have hmod : (v.size_ + 1) % W = v.size_ + 1 := Nat.mod_eq_of_lt (by omega)
    have hAlen : (v.elems ++ [x]).length = v.size_ + 1 := by
      rw [List.length_append, elems_length (by omega)]
      simp
    have hA : (v.elems ++ [x]).length ≤ max 1 ((v.capacity_ * 2) % W) := by
      rw [hAlen, hnc]; omega
    have hitem : (v.pushBack x).items =
        fillCopy (v.elems ++ [x]) (max 1 ((v.capacity_ * 2) % W)) := by
      rw [hres]
    have hsz : (v.pushBack x).size_ = v.size_ + 1 := by
      rw [hres]
      show (v.size_ + 1) % W = v.size_ + 1
      exact hmod
    have hcap : (v.pushBack x).capacity_ = max 1 (2 * v.capacity_) := by
      rw [hres]
      show max 1 ((v.capacity_ * 2) % W) = max 1 (2 * v.capacity_)
      exact hnc
    have helems : (v.pushBack x).elems = v.elems ++ [x] := by
      show (v.pushBack x).items.take (v.pushBack x).size_ =
        v.items.take v.size_ ++ [x]
      rw [hitem, hsz, fillCopy_of_le hA, hAlen,
        List.take_append_of_le_length (by omega),
        List.take_of_length_le (by omega)]
      rfl
    refine ⟨helems, hsz, fun h => absurd h hlt, fun _ => hcap, ?_, ?_, ?_⟩
    · rw [hsz, hcap]; omega
    · rw [hitem, length_fillCopy, hcap, hnc]
    · rw [hcap]; omega

/-- Strengthened invariant carried through a run of `PushBack`s started from
a small vector: well-formedness plus the doubling bound
`capacity ≤ 2 · size + 1`. -/
def Good (v : SimpleVector α) : Prop :=
  v.WF ∧ v.capacity_ ≤ 2 * v.size_ + 1

theorem good_empty : (empty : SimpleVector α).Good := by
  constructor
  · refine ⟨Nat.le_refl 0, rfl, ?_⟩
    show (0 : Nat) < W
    have hWv : W = 18446744073709551616 := rfl
    omega
  · show (0 : Nat) ≤ 2 * 0 + 1
    omega

theorem pushBack_good [Inhabited α] {v : SimpleVector α} (x : α)
    (hg : v.Good) (hs : v.size_ < 2305843009213693952) :
    (v.pushBack x).Good ∧ (v.pushBack x).elems = v.elems ++ [x] ∧
    (v.pushBack x).size_ = v.size_ + 1 := by
  obtain ⟨hwf, hcb⟩ := hg
  have hsc' := hwf.1
  have hWv : W = 18446744073709551616 := rfl
  have h2 : 2 * v.capacity_ < W := by omega
  obtain ⟨helems, hsz, hc1, hc2, hwf'⟩ := pushBack_spec v x hwf h2
  refine ⟨⟨hwf', ?_⟩, helems, hsz⟩
  rw [hsz]
  by_cases hlt : v.size_ < v.capacity_
  · rw [hc1 hlt]; omega
  · rw [hc2 (by omega)]; omega

theorem pushMany_elems [Inhabited α] :
    ∀ (vs : List α) (v : SimpleVector α), v.Good →
      v.size_ + vs.length ≤ 2305843009213693952 →
      (pushMany v vs).elems = v.elems ++ vs
  | [], v, _, _ => by simp [pushMany]
  | x :: vs, v, hg, hb => by
    have hs : v.size_ < 2305843009213693952 := by
      simp only [List.length_cons] at hb
      omega
    obtain ⟨hg', hel, hsz⟩ := pushBack_good x hg hs
    have hstep : pushMany v (x :: vs) = pushMany (v.pushBack x) vs := rfl
    rw [hstep, pushMany_elems vs (v.pushBack x) hg' (by
      simp only [List.length_cons] at hb
      omega), hel]
    simp

end SimpleVector

/-- Claim C4: on a well-formed vector (with `2 · capacity` still a
representable `size_t`, as for any physically allocatable buffer),
`PushBack(v)` appends `v` after the existing elements (preserving their
order), increments the size by one, keeps the capacity when there was spare
room, and reallocates to exactly `max(1, 2 · old_capacity)` when the vector
was full; consequently pushing `v1..vn` in order onto an empty vector (any
`n ≤ 2^61`, the bound forced by 64-bit `size_t` arithmetic) and reading
indices `0..n-1` yields `v1..vn` in order. -/
theorem c4_pushBack_growth_order (α : Type) [Inhabited α] :
    (∀ (v : SimpleVector α) (x : α), v.WF → 2 * v.capacity_ < W →
      (v.pushBack x).elems = v.elems ++ [x] ∧
      (v.pushBack x).size_ = v.size_ + 1 ∧
      (v.size_ < v.capacity_ → (v.pushBack x).capacity_ = v.capacity_) ∧
      (v.size_ = v.capacity_ →
        (v.pushBack x).capacity_ = max 1 (2 * v.capacity_))) ∧
    (∀ vs : List α, vs.length ≤ 2 ^ 61 →
      (SimpleVector.pushMany SimpleVector.empty vs).elems = vs) := by
  constructor
  · intro v x hwf h2
    obtain ⟨a, b, c, d, _⟩ := SimpleVector.pushBack_spec v x hwf h2
    exact ⟨a, b, c, d⟩
  · intro vs hb
    have h := SimpleVector.pushMany_elems vs SimpleVector.empty
      SimpleVector.good_empty (by
        show 0 + vs.length ≤ 2305843009213693952
        omega)
    simpa [SimpleVector.empty, SimpleVector.elems] using h

/-- Witness for C4: pushing 9 onto the vector `{7}` (full, capacity 1)
reallocates to capacity 2 and appends; pushing `1,2,3` onto an empty vector
yields `1,2,3`. -/
theorem c4_pushBack_growth_order_witness :
    (((SimpleVector.fromList [7] : SimpleVector Nat).pushBack 9).elems =
        (SimpleVector.fromList [7] : SimpleVector Nat).elems ++ [9] ∧
      ((SimpleVector.fromList [7] : SimpleVector Nat).pushBack 9).size_ =
        (SimpleVector.fromList [7] : SimpleVector Nat).size_ + 1 ∧
      ((SimpleVector.fromList [7] : SimpleVector Nat).size_ <
          (SimpleVector.fromList [7] : SimpleVector Nat).capacity_ →
        ((SimpleVector.fromList [7] : SimpleVector Nat).pushBack 9).capacity_ =
          (SimpleVector.fromList [7] : SimpleVector Nat).capacity_) ∧
      ((SimpleVector.fromList [7] : SimpleVector Nat).size_ =
          (SimpleVector.fromList [7] : SimpleVector Nat).capacity_ →
        ((SimpleVector.fromList [7] : SimpleVector Nat).pushBack 9).capacity_ =
          max 1 (2 * (SimpleVector.fromList [7] : SimpleVector Nat).capacity_))) ∧
    (SimpleVector.pushMany (SimpleVector.empty : SimpleVector Nat)
        [1, 2, 3]).elems = [1, 2, 3] :=
  ⟨(c4_pushBack_growth_order Nat).1 (SimpleVector.fromList [7]) 9 (by decide)
      (by decide),
    (c4_pushBack_growth_order Nat).2 [1, 2, 3] (by norm_num)⟩

namespace SimpleVector

/-- Shape of the state right after `Insert` at position `p ≤ size`: the size
is incremented and the first `size + 1` slots of the buffer hold the old
prefix `[0, p)`, then the inserted value, then the old suffix `[p, size)` —
on both the in-place and the reallocating path. -/
theorem insertAt_spec [Inhabited α] (v : SimpleVector α) (p : Nat) (x : α)
    (hwf : v.WF) (h2 : 2 * v.capacity_ < W) (hp : p ≤ v.size_) :
    (v.insertAt p x).size_ = v.size_ + 1 ∧
    v.size_ + 1 ≤ (v.insertAt p x).items.length ∧
    (v.insertAt p x).items.take (v.size_ + 1) =
      v.items.take p ++ [x] ++ (v.items.drop p).take (v.size_ - p) := by
  obtain ⟨hsc, hlen, hcw⟩ := hwf
  have hWv : W = 18446744073709551616 := rfl
  have hAlen : (v.items.take p ++ [x] ++
      (v.items.drop p).take (v.size_ - p)).length = v.size_ + 1 := by
    simp only [List.length_append, List.length_take, List.length_cons,
      List.length_nil, List.length_drop]
    omega
  by_cases hlt : v.size_ < v.capacity_
  · have hres : v.insertAt p x =
        ⟨v.items.take p ++ [x] ++ (v.items.drop p).take (v.size_ - p) ++
            v.items.drop (v.size_ + 1),
          (v.size_ + 1) % W, v.capacity_⟩ := by
      simp [insertAt, hlt]
    have hsz : (v.insertAt p x).size_ = v.size_ + 1 := by
      rw [hres]
      show (v.size_ + 1) % W = v.size_ + 1
      exact Nat.mod_eq_of_lt (by omega)
    have hitem : (v.insertAt p x).items =
        v.items.take p ++ [x] ++ (v.items.drop p).take (v.size_ - p) ++
          v.items.drop (v.size_ + 1) := by
      rw [hres]
    have hassoc : v.items.take p ++ [x] ++
        (v.items.drop p).take (v.size_ - p) ++ v.items.drop (v.size_ + 1) =
        (v.items.take p ++ [x] ++ (v.items.drop p).take (v.size_ - p)) ++
          v.items.drop (v.size_ + 1) := by
      simp [List.append_assoc]
    refine ⟨hsz, ?_, ?_⟩
    · rw [hitem, hassoc, List.length_append, hAlen]
      omega
    · rw [hitem, hassoc]
      exact List.take_left' hAlen
  · have hres : v.insertAt p x =
        ⟨fillCopy
            (v.items.take p ++ [x] ++ (v.items.drop p).take (v.size_ - p))
            (max 1 ((v.capacity_ * 2) % W)),
          (v.size_ + 1) % W, max 1 ((v.capacity_ * 2) % W)⟩ := by
      simp [insertAt, hlt]
    have heq : v.size_ = v.capacity_ := by omega
    have hm2 : (v.capacity_ * 2) % W = 2 * v.capacity_ := by
      rw [Nat.mod_eq_of_lt (by omega)]; omega
    have hA : (v.items.take p ++ [x] ++
        (v.items.drop p).take (v.size_ - p)).length ≤
        max 1 ((v.capacity_ * 2) % W) := by
      rw [hAlen, hm2]; omega
    have hsz : (v.insertAt p x).size_ = v.size_ + 1 := by
      rw [hres]
      show (v.size_ + 1) % W = v.size_ + 1
      exact Nat.mod_eq_of_lt (by omega)
    have hitem : (v.insertAt p x).items =
        fillCopy (v.items.take p ++ [x] ++ (v.items.drop p).take (v.size_ - p))
          (max 1 ((v.capacity_ * 2) % W)) := by
      rw [hres]
    refine ⟨hsz, ?_, ?_⟩
    · rw [hitem, length_fillCopy, hm2]
      omega
    · rw [hitem, fillCopy_of_le hA, hAlen, List.take_left' hAlen]

end SimpleVector

/-- Claim C5: for a well-formed vector (doubled capacity representable),
inserting `x` at any position `p ≤ size` and then erasing at `p` restores
the original logical element sequence and the original size, on both the
in-place and the reallocating `Insert` path (the proof makes no assumption
about which path was taken). -/
theorem c5_insert_erase_round_trip (α : Type) [Inhabited α]
    (v : SimpleVector α) (x : α) (p : Nat)
    (hwf : v.WF) (h2 : 2 * v.capacity_ < W) (hp : p ≤ v.size_) :
    ((v.insertAt p x).eraseAt p).elems = v.elems ∧
    ((v.insertAt p x).eraseAt p).size_ = v.size_ := by
  obtain ⟨hsz1, hlen1, htake1⟩ :=
    SimpleVector.insertAt_spec v p x hwf h2 hp
  obtain ⟨hsc, hlen, hcw⟩ := hwf
  have hWv : W = 18446744073709551616 := rfl
  have htp_len : (v.items.take p).length = p := by
    simp only [List.length_take]
    omega
  have hsz2 : ((v.insertAt p x).eraseAt p).size_ = v.size_ := by
    show wrapDec (v.insertAt p x).size_ = v.size_
    rw [hsz1]
    unfold wrapDec
    simp
  have hitem2 : ((v.insertAt p x).eraseAt p).items =
      (v.insertAt p x).items.take p ++
        ((v.insertAt p x).items.drop (p + 1)).take
          ((v.insertAt p x).size_ - 1 - p) ++
        (v.insertAt p x).items.drop ((v.insertAt p x).size_ - 1) := rfl
  have e1 : (v.insertAt p x).size_ - 1 = v.size_ := by omega
  have e2 : (v.insertAt p x).size_ - 1 - p = v.size_ - p := by omega
  have ha : (v.insertAt p x).items.take p = v.items.take p := by
    have h1 : (v.insertAt p x).items.take p =
        ((v.insertAt p x).items.take (v.size_ + 1)).take p := by
      rw [List.take_take, Nat.min_eq_left (by omega)]
    rw [h1, htake1, List.append_assoc,
      List.take_append_of_le_length (le_of_eq htp_len.symm),
      List.take_take, Nat.min_self]
  have hb : ((v.insertAt p x).items.drop (p + 1)).take (v.size_ - p) =
      (v.items.drop p).take (v.size_ - p) := by
    have e3 : p + 1 + (v.size_ - p) = v.size_ + 1 := by omega
    rw [List.take_drop, e3, htake1, List.drop_left']
    simp [htp_len]
  have hseg_len : ((v.items.drop p).take (v.size_ - p)).length =
      v.size_ - p := by
    simp only [List.length_take, List.length_drop]
    omega
  have hsplit : v.items.take v.size_ =
      v.items.take p ++ (v.items.drop p).take (v.size_ - p) := by
    have e4 : v.size_ = p + (v.size_ - p) := by omega
    conv_lhs => rw [e4]
    exact List.take_add v.items p (v.size_ - p)
  refine ⟨?_, hsz2⟩
  show ((v.insertAt p x).eraseAt p).items.take
      ((v.insertAt p x).eraseAt p).size_ = v.items.take v.size_
  rw [hsz2, hitem2, e1, ha, hb, List.append_assoc,
    List.take_append_eq_append_take, htp_len,
    List.take_of_length_le (show (v.items.take p).length ≤ v.size_ by omega),
    hsplit]
  congr 1
  rw [List.take_append_eq_append_take, hseg_len,
    List.take_of_length_le (le_of_eq hseg_len),
    Nat.sub_self (v.size_ - p), List.take_zero, List.append_nil]

/-- Witness for C5 at the concrete input `{1,2}` (size 2, capacity 2, so the
`Insert` reallocates), inserting 9 at position 1 and erasing at 1. -/
theorem c5_insert_erase_round_trip_witness :
    (((SimpleVector.fromList [1, 2] : SimpleVector Nat).insertAt 1 9).eraseAt
        1).elems = (SimpleVector.fromList [1, 2] : SimpleVector Nat).elems ∧
    (((SimpleVector.fromList [1, 2] : SimpleVector Nat).insertAt 1 9).eraseAt
        1).size_ = (SimpleVector.fromList [1, 2] : SimpleVector Nat).size_ :=
  c5_insert_erase_round_trip Nat (SimpleVector.fromList [1, 2]) 9 1
    (by decide) (by decide) (by decide)

namespace SimpleVector

/-- `lexLt` (the STL `lexicographical_compare` loop) decides Mathlib's
lexicographic strict order `List.Lex (· < ·)` for any linear element
order. -/
theorem lexLt_iff_lex [LinearOrder α] :
    ∀ l₁ l₂ : List α, lexLt l₁ l₂ = true ↔ List.Lex (· < ·) l₁ l₂
  | _ :: _, [] => by simp [lexLt]
  | [], [] => by simp [lexLt]
  | [], b :: bs => by
    simp only [lexLt]
    exact iff_of_true trivial List.Lex.nil
  | a :: as, b :: bs => by
    rcases lt_trichotomy a b with h | h | h
    · simp only [lexLt, if_pos h]
      exact iff_of_true trivial (List.Lex.rel h)
    · subst h
      simp only [lexLt, if_neg (lt_irrefl a)]
      rw [lexLt_iff_lex as bs]
      haveI : IsIrrefl α (· < ·) := ⟨lt_irrefl⟩
      exact (List.Lex.cons_iff).symm
    · have hnb : ¬a < b := lt_asymm h
      simp only [lexLt, if_neg hnb, if_pos h]
      refine iff_of_false (by simp) ?_
      intro hl
      cases hl with
      | cons h' => exact lt_irrefl _ h
      | rel h' => exact lt_asymm h h'

/-- `operator==` decides: same size and equal logical element sequences. -/
theorem eqOp_iff [DecidableEq α] (a b : SimpleVector α) :
    eqOp a b = true ↔ a.size_ = b.size_ ∧ a.elems = b.elems := by
  by_cases h : a.size_ = b.size_ <;>
    simp [eqOp, GetSize, elems, h]

/-- `operator<` decides the lexicographic strict order on the logical
element sequences. -/
theorem ltOp_iff [LinearOrder α] (a b : SimpleVector α) :
    ltOp a b = true ↔ List.Lex (· < ·) a.elems b.elems :=
  lexLt_iff_lex a.elems b.elems

end SimpleVector

/-- Claim C8: `a == b` holds iff the two vectors have the same size and
pairwise-equal logical elements in order; `a < b` holds iff `a`'s logical
elements are lexicographically less than `b`'s; the remaining four
operators are exactly the stated derived forms (`!=` is `!(==)`, `<=` is
`!(b < a)`, `>` is `!(<=)`, `>=` is `!(<)`); and the three concrete
examples `{1,2,3} == {1,2,3}`, `{1,2} < {1,2,3}`, `{1,3} > {1,2,9}` all
evaluate to true. -/
theorem c8_comparison_operators :
    (∀ (α : Type) [DecidableEq α] (a b : SimpleVector α),
      SimpleVector.eqOp a b = true ↔ a.size_ = b.size_ ∧ a.elems = b.elems) ∧
    (∀ (α : Type) [LinearOrder α] (a b : SimpleVector α),
      SimpleVector.ltOp a b = true ↔ List.Lex (· < ·) a.elems b.elems) ∧
    (∀ (α : Type) [DecidableEq α] (a b : SimpleVector α),
      SimpleVector.neOp a b = !(SimpleVector.eqOp a b)) ∧
    (∀ (α : Type) [LinearOrder α] (a b : SimpleVector α),
      SimpleVector.leOp a b = !(SimpleVector.ltOp b a) ∧
      SimpleVector.gtOp a b = !(SimpleVector.leOp a b) ∧
      SimpleVector.geOp a b = !(SimpleVector.ltOp a b)) ∧
    SimpleVector.eqOp (SimpleVector.fromList [1, 2, 3])
      (SimpleVector.fromList ([1, 2, 3] : List Nat)) = true ∧
    SimpleVector.ltOp (SimpleVector.fromList [1, 2])
      (SimpleVector.fromList ([1, 2, 3] : List Nat)) = true ∧
    SimpleVector.gtOp (SimpleVector.fromList [1, 3])
      (SimpleVector.fromList ([1, 2, 9] : List Nat)) = true := by
  refine ⟨?_, ?_, ?_, ?_, by decide, by decide, by decide⟩
  · intro α inst a b
    exact SimpleVector.eqOp_iff a b
  · intro α inst a b
    exact SimpleVector.ltOp_iff a b
  · intro α inst a b
    rfl
  · intro α inst a b
    exact ⟨rfl, rfl, rfl⟩
